import Mathlib

/-!
# Verification of the AEP ZIP Market Analysis pipeline

Shallow embedding of `src/app.py` (a Streamlit dashboard over a workbook of
establishment counts and a GeoJSON boundary collection), together with
theorems settling the specification claims about its data pipeline:
the `ESTAB` column coercion, the ZIP extraction from the `NAME` column,
the groupby/sort aggregations, the name-to-ZIP selection filter, the
centroid extraction from GeoJSON features, and the choropleth key join.
-/

namespace AepZip

/-! ## Raw cell values and the ESTAB coercion

`load_data` (src/app.py lines 24-26) runs, on each sheet having a column
literally named `ESTAB`:

    df["ESTAB"] = pd.to_numeric(df["ESTAB"], errors="coerce").fillna(0).astype(int)

A raw cell is a number, a string, or a missing value (NaN).  `pd.to_numeric`
with `errors="coerce"` keeps numbers, parses numeric strings, and turns
everything else (and missing values) into NaN; `.fillna(0)` replaces NaN by 0
and `.astype(int)` lands in machine integers.  Numeric strings are modelled
as optionally-signed decimal integer literals. -/

inductive RawCell where
  | intVal (n : Int)
  | strVal (s : String)
  | missing
deriving DecidableEq, Repr

def digitsToNat (cs : List Char) : Nat :=
  cs.foldl (fun acc c => acc * 10 + (c.toNat - 48)) 0

def parseIntString (s : String) : Option Int :=
  match s.toList with
  | [] => none
  | '-' :: rest =>
      if rest.isEmpty then none
      else if rest.all Char.isDigit then some (-(digitsToNat rest : Int)) else none
  | cs => if cs.all Char.isDigit then some (digitsToNat cs : Int) else none

/-- `pd.to_numeric(col, errors="coerce")` on one cell: numbers pass through,
numeric strings parse, anything else (and NaN) becomes NaN (`none`). -/
def to_numeric_coerce : RawCell → Option Int
  | .intVal n => some n
  | .strVal s => parseIntString s
  | .missing => none

/-- `.fillna(0).astype(int)` applied after the coercion: NaN becomes 0. -/
def estabCoerced (c : RawCell) : Int :=
  (to_numeric_coerce c).getD 0

/-- The whole-column update `df["ESTAB"] = ...` of src/app.py line 26. -/
def coerceColumn (col : List RawCell) : List Int :=
  col.map estabCoerced

/-! ## The detail table and ZIP extraction

`load_data` (src/app.py lines 29-31) derives the ZIP key of the
`With EE Mapping` sheet from its free-text `NAME` column:

    ee_map["ZIP"] = ee_map["NAME"].str.extract(r"(\d{5})")
    ee_map = ee_map.dropna(subset=["ZIP"])
    ee_map["ZIP"] = ee_map["ZIP"].astype(str).str.zfill(5)

`str.extract(r"(\d{5})")` returns, per row, the leftmost match of five
consecutive digit characters (NaN when there is none); `dropna` removes the
rows with no match; `zfill(5)` left-pads with zeros to width five. -/

structure RawRow where
  NAME : String
  NAICS2017_LABEL : String
  ESTAB : Int
deriving DecidableEq, Repr

/-- A detail-table row after the derived `ZIP` column has been added. -/
structure Row where
  NAME : String
  NAICS2017_LABEL : String
  ESTAB : Int
  ZIP : String
deriving DecidableEq, Repr

/-- Do the first five characters of `cs` exist and are they all digits? -/
def startsRun5 (cs : List Char) : Bool :=
  match cs with
  | c0 :: c1 :: c2 :: c3 :: c4 :: _ =>
      c0.isDigit && c1.isDigit && c2.isDigit && c3.isDigit && c4.isDigit
  | _ => false

/-- Leftmost match of the regex `\d{5}`: scan positions left to right and
return the first five characters at the first position starting a run of
five consecutive digits. -/
def extract5 : List Char → Option (List Char)
  | [] => none
  | c :: rest =>
      if startsRun5 (c :: rest) then some ((c :: rest).take 5)
      else extract5 rest

/-- `Series.str.zfill(width)`: left-pad with `'0'` to the given width. -/
def zfill (width : Nat) (s : String) : String :=
  String.mk (List.replicate (width - s.length) '0' ++ s.toList)

/-- `ee_map["NAME"].str.extract(r"(\d{5})")` on one row. -/
def extractZip (s : String) : Option String :=
  (extract5 s.toList).map String.mk

/-- Lines 29-31 of src/app.py: extract the ZIP from `NAME`, drop the rows
where extraction failed, and zero-pad the result. -/
def normalizeDetail (rows : List RawRow) : List Row :=
  rows.filterMap fun r =>
    (extractZip r.NAME).map fun z =>
      { NAME := r.NAME, NAICS2017_LABEL := r.NAICS2017_LABEL,
        ESTAB := r.ESTAB, ZIP := zfill 5 z }

/-- Spec-level reading of "the first run of 5 consecutive digits": the
least index at which five consecutive digit characters start. -/
def firstRunIdx (cs : List Char) : Option Nat :=
  (List.range cs.length).find? fun i => startsRun5 (cs.drop i)

/-- The scan `extract5` computes exactly the leftmost position starting a
run of five consecutive digits, and returns the five characters there. -/
theorem extract5_eq_firstRun (cs : List Char) :
    extract5 cs = (firstRunIdx cs).map fun i => (cs.drop i).take 5 := by
  induction cs with
  | nil => rfl
  | cons c rest ih =>
      unfold extract5 firstRunIdx
      by_cases h : startsRun5 (c :: rest) = true
      · rw [if_pos h, List.length_cons, List.range_succ_eq_map,
          List.find?_cons_of_pos _ (by simpa using h)]
        simp
      · rw [if_neg h, ih, List.length_cons, List.range_succ_eq_map,
          List.find?_cons_of_neg _ (by simpa using h), List.find?_map]
        unfold firstRunIdx
        simp only [Function.comp, List.drop_succ_cons, Option.map_map]
        rfl

theorem startsRun5_take (cs : List Char) (h : startsRun5 cs = true) :
    (cs.take 5).length = 5 ∧ (cs.take 5).all Char.isDigit := by
  rcases cs with _ | ⟨c0, _ | ⟨c1, _ | ⟨c2, _ | ⟨c3, _ | ⟨c4, rest⟩⟩⟩⟩⟩ <;>
    simp_all [startsRun5, List.take]

theorem zfill_of_length5 (s : String) (h : s.length = 5) : zfill 5 s = s := by
  unfold zfill
  rw [h]
  cases s
  rfl

theorem length_mk (cs : List Char) : (String.mk cs).length = cs.length := rfl

/-- Membership in the normalized detail table, phrased through the
leftmost-digit-run characterization: a raw row survives iff its `NAME`
contains five consecutive digits, and its `ZIP` is the five characters at
the leftmost such position (the `zfill` is the identity on them). -/
theorem mem_normalizeDetail (rows : List RawRow) (r' : Row) :
    r' ∈ normalizeDetail rows ↔
      ∃ r ∈ rows, ∃ i, firstRunIdx r.NAME.toList = some i ∧
        r' = { NAME := r.NAME, NAICS2017_LABEL := r.NAICS2017_LABEL,
               ESTAB := r.ESTAB,
               ZIP := String.mk ((r.NAME.toList.drop i).take 5) } := by
  unfold normalizeDetail
  rw [List.mem_filterMap]
  constructor
  · rintro ⟨r, hr, hmap⟩
    rw [Option.map_eq_some'] at hmap
    obtain ⟨z, hz, hr'⟩ := hmap
    unfold extractZip at hz
    rw [extract5_eq_firstRun, Option.map_map, Option.map_eq_some'] at hz
    obtain ⟨i, hi, hzi⟩ := hz
    simp only [Function.comp] at hzi
    refine ⟨r, hr, i, hi, ?_⟩
    have hrun : startsRun5 (r.NAME.toList.drop i) = true := by
      have := List.find?_some hi
      simpa using this
    have hlen : (String.mk ((r.NAME.toList.drop i).take 5)).length = 5 := by
      rw [length_mk]
      exact (startsRun5_take _ hrun).1
    rw [← hr', ← hzi, zfill_of_length5 _ hlen]
  · rintro ⟨r, hr, i, hi, hr'⟩
    refine ⟨r, hr, ?_⟩
    unfold extractZip
    rw [extract5_eq_firstRun, hi]
    have hrun : startsRun5 (r.NAME.toList.drop i) = true := by
      have := List.find?_some hi
      simpa using this
    have hlen : (String.mk ((r.NAME.toList.drop i).take 5)).length = 5 := by
      rw [length_mk]
      exact (startsRun5_take _ hrun).1
    simp only [Option.map_some']
    rw [hr', zfill_of_length5 _ hlen]

/-! ## Grouping and aggregation

`zip_totals = ee_map.groupby("ZIP", as_index=False)["ESTAB"].sum()`
(src/app.py line 47) and

    sector_totals = multi_data.groupby("NAICS2017_LABEL", as_index=False)["ESTAB"].sum()
                    .sort_values("ESTAB", ascending=False)

(lines 139-142).  `groupby` with its default `sort=True` lists the distinct
group keys in ascending order and sums `ESTAB` within each group;
`sort_values(ascending=False)` then sorts the groups by descending total
(modelled with a stable insertion sort; the sort key leaves the relative
order of equal totals to the sort algorithm, and the input rows' order
never reaches it because `groupby` has already canonicalized key order). -/

/-- Accumulator pass of `pandas.unique`: emit each value the first time it
is seen, skip it afterwards. -/
def uniqueAux : List String → List String → List String
  | [], _ => []
  | a :: as, seen =>
      if a ∈ seen then uniqueAux as seen else a :: uniqueAux as (a :: seen)

/-- `pandas.unique`-style deduplication keeping first occurrences. -/
def uniqueKeepFirst (l : List String) : List String := uniqueAux l []

/-- Ascending string order used by `groupby`'s key sorting: code-point
lexicographic comparison (Python string `<`), phrased on the character
lists. -/
def strKeyLE : String → String → Prop := fun a b => a.toList ≤ b.toList

instance : DecidableRel strKeyLE :=
  fun a b => inferInstanceAs (Decidable (a.toList ≤ b.toList))

instance : IsTotal String strKeyLE := ⟨fun a b => le_total a.toList b.toList⟩

instance : IsTrans String strKeyLE := ⟨fun _ _ _ h1 h2 => le_trans h1 h2⟩

instance : IsAntisymm String strKeyLE :=
  ⟨fun _ _ h1 h2 => String.toList_inj.mp (le_antisymm h1 h2)⟩

/-- `groupby(key, as_index=False)["ESTAB"].sum()`: distinct keys in
ascending order, each with the sum of `ESTAB` over its rows. -/
def groupedSums (rows : List Row) (key : Row → String) : List (String × Int) :=
  (List.insertionSort strKeyLE (uniqueKeepFirst (rows.map key))).map
    fun k => (k, ((rows.filter fun r => key r = k).map Row.ESTAB).sum)

/-- The comparison used by `sort_values("ESTAB", ascending=False)`. -/
def descESTAB : (String × Int) → (String × Int) → Prop := fun p q => q.2 ≤ p.2

instance : DecidableRel descESTAB := fun p q => inferInstanceAs (Decidable (q.2 ≤ p.2))

instance : IsTotal (String × Int) descESTAB := ⟨fun a b => le_total b.2 a.2⟩

instance : IsTrans (String × Int) descESTAB := ⟨fun _ _ _ h1 h2 => le_trans h2 h1⟩

/-- src/app.py lines 139-142 (also lines 125-128 before the `head(5)`). -/
def sector_totals (rows : List Row) : List (String × Int) :=
  List.insertionSort descESTAB (groupedSums rows Row.NAICS2017_LABEL)

/-- src/app.py lines 47-48: group by ZIP, then re-apply `zfill(5)`. -/
def zip_totals (rows : List Row) : List (String × Int) :=
  (groupedSums rows Row.ZIP).map fun p => (zfill 5 p.1, p.2)

/-! ## Sidebar selection

src/app.py lines 64-73: the sidebar offers `NAME` values; the chosen names
are resolved to their ZIPs, and the detail table is filtered by ZIP
membership — not by name:

    final_selected_zips = ee_map.loc[ee_map["NAME"].isin(sidebar_selection), "ZIP"].unique()
    if not len(final_selected_zips):
        st.warning("Please select at least one ZIP from the sidebar.")
        st.stop()
    multi_data = ee_map[ee_map["ZIP"].isin(final_selected_zips)]
-/

def final_selected_zips (ee_map : List Row) (sidebar_selection : List String) :
    List String :=
  uniqueKeepFirst ((ee_map.filter fun r => r.NAME ∈ sidebar_selection).map Row.ZIP)

def multi_data (ee_map : List Row) (sidebar_selection : List String) : List Row :=
  ee_map.filter fun r => r.ZIP ∈ final_selected_zips ee_map sidebar_selection

/-- Outcome of the selection guard: either the `st.warning` + `st.stop`
empty-state path, or the filtered table handed to the charts. -/
inductive RenderOutcome where
  | noSelectionWarning
  | rendered (multi : List Row)
deriving DecidableEq, Repr

def selectionStep (ee_map : List Row) (sidebar_selection : List String) :
    RenderOutcome :=
  if (final_selected_zips ee_map sidebar_selection).isEmpty then
    .noSelectionWarning
  else
    .rendered (multi_data ee_map sidebar_selection)

/-! ## GeoJSON features, centroids, and the choropleth key join -/

/-- A GeoJSON feature's `properties` object (property values kept as their
raw strings; the `float(...)` conversion of coordinates is irrelevant to
presence/absence and is not modelled). -/
structure Feature where
  props : List (String × String)
deriving DecidableEq, Repr

/-- Python `feature["properties"].get(k)`: `None` when the key is absent. -/
def getProp (f : Feature) (k : String) : Option String :=
  (f.props.find? fun p => p.1 = k).map Prod.snd

/-- The ZIP key of a feature, as accessed by `featureidkey="properties.ZCTA5CE20"`. -/
def zcta (f : Feature) : Option String := getProp f "ZCTA5CE20"

/-- Python dict update `d[k] = v` (lookup-relevant behavior: the new value
wins for `k`, all other keys unchanged). -/
def dictInsert (d : List (String × α)) (k : String) (v : α) : List (String × α) :=
  (d.filter fun p => p.1 ≠ k) ++ [(k, v)]

/-- Python dict lookup `d.get(k)`. -/
def dictGet (d : List (String × α)) (k : String) : Option α :=
  (d.find? fun p => p.1 = k).map Prod.snd

def lonOf (f : Feature) : Option String := getProp f "INTPTLON20"

def latOf (f : Feature) : Option String := getProp f "INTPTLAT20"

/-- Python truthiness of an optional string (`if lon and lat:`): `None`
and the empty string are falsy. -/
def truthy : Option String → Bool
  | none => false
  | some s => s ≠ ""

/-- Does the loop body store an entry for this feature?  (Both coordinate
properties present and truthy — the `if lon and lat:` guard.) -/
def storesCentroid (f : Feature) : Bool :=
  truthy (lonOf f) && truthy (latOf f)

/-- The coordinate pair the loop stores for a contributing feature. -/
def coordsOf (f : Feature) : String × String :=
  ((lonOf f).getD "", (latOf f).getD "")

/-- One iteration of the centroid loop, src/app.py lines 52-57.
`feature["properties"]["ZCTA5CE20"]` is an unconditional subscript: a
feature without that property raises a `KeyError` (the error branch);
`INTPTLON20`/`INTPTLAT20` are read with `.get` and the entry is stored
only when both are truthy. -/
def centroidStep (d : List (String × String × String)) (f : Feature) :
    Except String (List (String × String × String)) :=
  match getProp f "ZCTA5CE20" with
  | none => .error "KeyError: ZCTA5CE20"
  | some z =>
      if storesCentroid f then .ok (dictInsert d z (coordsOf f)) else .ok d

def zipCentroidsAux (fs : List Feature) (d : List (String × String × String)) :
    Except String (List (String × String × String)) :=
  match fs with
  | [] => .ok d
  | f :: rest =>
      match centroidStep d f with
      | .error e => .error e
      | .ok d' => zipCentroidsAux rest d'

/-- The whole `for feature in geojson_data["features"]` loop of lines 51-57. -/
def zip_centroids (features : List Feature) :
    Except String (List (String × String × String)) :=
  zipCentroidsAux features []

/-- Lines 59-60: `zip_centroids.get(z, (None, None))` split into the `lon`
and `lat` columns — an absent centroid becomes a pair of `None`s ("no
label"), never an error. -/
def centroidLabel (d : List (String × String × String)) (z : String) :
    Option String × Option String :=
  match dictGet d z with
  | some (lo, la) => (some lo, some la)
  | none => (none, none)

/-- Line 92: `selected_totals = zip_totals[zip_totals["ZIP"].isin(final_selected_zips)]`. -/
def selected_totals (zt : List (String × Int)) (zips : List String) :
    List (String × Int) :=
  zt.filter fun p => p.1 ∈ zips

/-- The choropleth key join performed by the map trace (lines 94-107):
`locations` are matched against `featureidkey="properties.ZCTA5CE20"`, and
aggregate entries without a matching feature are dropped from the map. -/
def mapJoin (agg : List (String × Int)) (features : List Feature) :
    List (String × Int) :=
  agg.filter fun p => features.any fun f => zcta f = some p.1

/-! ## Properties of the grouping pipeline -/

theorem mem_uniqueAux (l : List String) (b : String) :
    ∀ seen, b ∈ uniqueAux l seen ↔ b ∈ l ∧ b ∉ seen := by
  induction l with
  | nil => intro seen; simp [uniqueAux]
  | cons a as ih =>
      intro seen
      show b ∈ (if a ∈ seen then uniqueAux as seen
                else a :: uniqueAux as (a :: seen)) ↔ _
      by_cases ha : a ∈ seen
      · rw [if_pos ha, ih]
        by_cases hba : b = a
        · subst hba; simp [ha]
        · simp [hba]
      · rw [if_neg ha]
        simp only [List.mem_cons, ih, List.mem_cons]
        by_cases hba : b = a
        · subst hba; simp [ha]
        · simp [hba]

theorem nodup_uniqueAux (l : List String) :
    ∀ seen, (uniqueAux l seen).Nodup := by
  induction l with
  | nil => intro _; simp [uniqueAux]
  | cons a as ih =>
      intro seen
      show ((if a ∈ seen then uniqueAux as seen
             else a :: uniqueAux as (a :: seen))).Nodup
      by_cases ha : a ∈ seen
      · rw [if_pos ha]; exact ih seen
      · rw [if_neg ha]
        refine List.nodup_cons.2 ⟨fun hmem => ?_, ih _⟩
        exact ((mem_uniqueAux as a _).1 hmem).2 (List.mem_cons_self a seen)

theorem mem_uniqueKeepFirst (l : List String) (b : String) :
    b ∈ uniqueKeepFirst l ↔ b ∈ l := by
  rw [uniqueKeepFirst, mem_uniqueAux]
  simp

theorem nodup_uniqueKeepFirst (l : List String) : (uniqueKeepFirst l).Nodup :=
  nodup_uniqueAux l []

/-- `groupby` canonicalizes: two permutations of the same rows produce the
same grouped sums (same sorted distinct keys, same per-key totals). -/
theorem groupedSums_perm (rows1 rows2 : List Row) (key : Row → String)
    (h : List.Perm rows1 rows2) :
    groupedSums rows1 key = groupedSums rows2 key := by
  unfold groupedSums
  have hkeys : List.insertionSort strKeyLE (uniqueKeepFirst (rows1.map key))
      = List.insertionSort strKeyLE (uniqueKeepFirst (rows2.map key)) := by
    have hperm : List.Perm
        (List.insertionSort strKeyLE (uniqueKeepFirst (rows1.map key)))
        (List.insertionSort strKeyLE (uniqueKeepFirst (rows2.map key))) := by
      refine ((List.perm_insertionSort _ _).trans ?_).trans
        (List.perm_insertionSort _ _).symm
      apply (List.perm_ext_iff_of_nodup (nodup_uniqueKeepFirst _)
        (nodup_uniqueKeepFirst _)).2
      intro a
      rw [mem_uniqueKeepFirst, mem_uniqueKeepFirst]
      exact (h.map key).mem_iff
    exact List.eq_of_perm_of_sorted hperm
      (List.sorted_insertionSort strKeyLE _) (List.sorted_insertionSort strKeyLE _)
  rw [hkeys]
  apply List.map_congr_left
  intro k _
  have : List.Perm ((rows1.filter fun r => key r = k).map Row.ESTAB)
      ((rows2.filter fun r => key r = k).map Row.ESTAB) :=
    (h.filter _).map Row.ESTAB
  rw [this.sum_eq]

/-- The grouped sums carry their keys in ascending order. -/
theorem groupedSums_pairwise (rows : List Row) (key : Row → String) :
    List.Pairwise (fun p q => strKeyLE p.1 q.1) (groupedSums rows key) := by
  unfold groupedSums
  rw [List.pairwise_map]
  exact List.sorted_insertionSort strKeyLE (uniqueKeepFirst (rows.map key))

/-- Descending-by-total order refined with the tie order actually produced:
equal totals keep the ascending key order coming out of `groupby`. -/
def descLex : (String × Int) → (String × Int) → Prop :=
  fun p q => q.2 < p.2 ∨ (p.2 = q.2 ∧ strKeyLE p.1 q.1)

theorem orderedInsert_descLex (x : String × Int) :
    ∀ l : List (String × Int), List.Sorted descLex l →
      (∀ b ∈ l, strKeyLE x.1 b.1) →
      List.Sorted descLex (List.orderedInsert descESTAB x l) := by
  intro l
  induction l with
  | nil => intro _ _; simp [List.Sorted]
  | cons b bs ih =>
      intro hl hx
      rw [List.orderedInsert]
      by_cases h : descESTAB x b
      · rw [if_pos h]
        unfold descESTAB at h
        refine List.sorted_cons.2 ⟨?_, hl⟩
        intro c hc
        rcases List.mem_cons.1 hc with rfl | hc
        · rcases lt_or_eq_of_le h with h' | h'
          · exact Or.inl h'
          · exact Or.inr ⟨h'.symm, hx c (List.mem_cons_self _ _)⟩
        · have hbc := List.rel_of_sorted_cons hl c hc
          rcases hbc with h1 | ⟨h1, _⟩
          · exact Or.inl (lt_of_lt_of_le h1 h)
          · have hcx : c.2 ≤ x.2 := h1 ▸ h
            rcases lt_or_eq_of_le hcx with h' | h'
            · exact Or.inl h'
            · exact Or.inr ⟨h'.symm, hx c (List.mem_cons_of_mem _ hc)⟩
      · rw [if_neg h]
        unfold descESTAB at h
        have hxlt : x.2 < b.2 := lt_of_not_le h
        refine List.sorted_cons.2
          ⟨?_, ih hl.of_cons (fun c hc => hx c (List.mem_cons_of_mem _ hc))⟩
        intro c hc
        rcases (List.mem_orderedInsert descESTAB).1 hc with rfl | hc
        · exact Or.inl hxlt
        · exact List.rel_of_sorted_cons hl c hc

/-- Stability: sorting by descending total with an insertion sort keeps
equal totals in their incoming (ascending-key) order. -/
theorem insertionSort_descLex :
    ∀ l : List (String × Int),
      List.Pairwise (fun p q => strKeyLE p.1 q.1) l →
      List.Sorted descLex (List.insertionSort descESTAB l) := by
  intro l
  induction l with
  | nil => intro _; simp [List.Sorted]
  | cons x xs ih =>
      intro hp
      rw [List.insertionSort]
      refine orderedInsert_descLex x _ (ih (List.pairwise_cons.1 hp).2) ?_
      intro b hb
      exact (List.pairwise_cons.1 hp).1 b
        ((List.perm_insertionSort descESTAB xs).mem_iff.1 hb)

/-! ## Properties of the centroid dictionary -/

theorem dictGet_insert_self {α : Type} (d : List (String × α)) (k : String)
    (v : α) : dictGet (dictInsert d k v) k = some v := by
  unfold dictGet dictInsert
  have h1 : List.find? (fun p => decide (p.1 = k))
      (List.filter (fun p => decide (p.1 ≠ k)) d) = none := by
    apply List.find?_eq_none.mpr
    intro x hx
    have hne := (List.mem_filter.1 hx).2
    simp only [decide_eq_true_eq] at hne ⊢
    exact hne
  rw [List.find?_append, h1, Option.none_or]
  simp [List.find?]

theorem dictGet_insert_ne {α : Type} (d : List (String × α)) (k k' : String)
    (v : α) (h : k' ≠ k) : dictGet (dictInsert d k v) k' = dictGet d k' := by
  unfold dictGet dictInsert
  have h2 : List.find? (fun p => decide (p.1 = k')) [(k, v)] = none := by
    have hdec : decide (k = k') = false := decide_eq_false fun hc => h hc.symm
    simp [List.find?, hdec]
  rw [List.find?_append, h2, Option.or_none]
  congr 1
  induction d with
  | nil => rfl
  | cons p ps ih =>
      by_cases hp : p.1 = k
      · have hp' : ¬ p.1 = k' := fun hc => h (hc.symm.trans hp)
        rw [List.filter_cons_of_neg (by simp [hp]),
          List.find?_cons_of_neg _ (by simp [hp'])]
        exact ih
      · rw [List.filter_cons_of_pos (by simp [hp])]
        by_cases hp' : p.1 = k'
        · rw [List.find?_cons_of_pos _ (by simp [hp']),
            List.find?_cons_of_pos _ (by simp [hp'])]
        · rw [List.find?_cons_of_neg _ (by simp [hp']),
            List.find?_cons_of_neg _ (by simp [hp'])]
          exact ih

theorem centroidStep_ok (d0 d1 : List (String × String × String)) (f : Feature)
    (h : centroidStep d0 f = .ok d1) :
    ∃ zf, zcta f = some zf ∧
      ((storesCentroid f = true ∧ d1 = dictInsert d0 zf (coordsOf f)) ∨
       (storesCentroid f = false ∧ d1 = d0)) := by
  unfold centroidStep at h
  split at h
  · exact Except.noConfusion h
  · rename_i zf hz
    refine ⟨zf, hz, ?_⟩
    by_cases hs : storesCentroid f = true
    · rw [if_pos hs] at h
      cases h
      exact Or.inl ⟨hs, rfl⟩
    · rw [if_neg hs] at h
      cases h
      exact Or.inr ⟨Bool.not_eq_true _ ▸ hs, rfl⟩

/-- What the finished centroid dictionary answers for a key `z`, as a
function of the features contributing an entry for `z`. -/
theorem zipCentroidsAux_get (z : String) :
    ∀ (fs : List Feature) (d0 d : List (String × String × String)),
      zipCentroidsAux fs d0 = .ok d →
      ((∀ f ∈ fs, ¬ (zcta f = some z ∧ storesCentroid f = true)) →
        dictGet d z = dictGet d0 z) ∧
      ((∃ f ∈ fs, zcta f = some z ∧ storesCentroid f = true) →
        ∃ f ∈ fs, (zcta f = some z ∧ storesCentroid f = true) ∧
          dictGet d z = some (coordsOf f)) := by
  intro fs
  induction fs with
  | nil =>
      intro d0 d h
      cases h
      exact ⟨fun _ => rfl, by simp⟩
  | cons f rest ih =>
      intro d0 d h
      cases hstep : centroidStep d0 f with
      | error e => rw [zipCentroidsAux, hstep] at h; cases h
      | ok d1 =>
          rw [zipCentroidsAux, hstep] at h
          obtain ⟨hnone, hsome⟩ := ih d1 d h
          obtain ⟨zf, hzf, hcase⟩ := centroidStep_ok d0 d1 f hstep
          by_cases hrest : ∃ g ∈ rest, zcta g = some z ∧ storesCentroid g = true
          · refine ⟨?_, ?_⟩
            · intro hall
              exact absurd hrest (by
                rintro ⟨g, hg, hgz⟩
                exact hall g (List.mem_cons_of_mem _ hg) hgz)
            · intro _
              obtain ⟨g, hg, hgz, hget⟩ := hsome hrest
              exact ⟨g, List.mem_cons_of_mem _ hg, hgz, hget⟩
          · have hd1 : dictGet d z = dictGet d1 z := by
              refine hnone ?_
              intro g hg hgz
              exact hrest ⟨g, hg, hgz⟩
            refine ⟨?_, ?_⟩
            · intro hall
              rw [hd1]
              rcases hcase with ⟨hs, rfl⟩ | ⟨_, rfl⟩
              · by_cases hzz : zf = z
                · exact absurd ⟨hzz ▸ hzf, hs⟩ (hall f (List.mem_cons_self _ _))
                · exact dictGet_insert_ne d0 zf z (coordsOf f)
                    fun hc => hzz hc.symm
              · rfl
            · intro hex
              rcases hex with ⟨g, hg, hgz⟩
              rcases List.mem_cons.1 hg with rfl | hgrest
              · have hzz : zf = z := by
                  have := hgz.1
                  rw [hzf] at this
                  exact Option.some_injective _ this
                subst hzz
                refine ⟨g, List.mem_cons_self _ _, hgz, ?_⟩
                rw [hd1]
                rcases hcase with ⟨_, rfl⟩ | ⟨hs, _⟩
                · exact dictGet_insert_self d0 zf (coordsOf g)
                · exact absurd hgz.2 (by simp [hs])
              · exact absurd ⟨g, hgrest, hgz⟩ hrest

/-! ## Selection resolution -/

theorem mem_final_selected_zips (ee : List Row) (sel : List String)
    (z : String) :
    z ∈ final_selected_zips ee sel ↔ ∃ r ∈ ee, r.NAME ∈ sel ∧ r.ZIP = z := by
  unfold final_selected_zips
  rw [mem_uniqueKeepFirst, List.mem_map]
  constructor
  · rintro ⟨r, hr, rfl⟩
    rw [List.mem_filter] at hr
    exact ⟨r, hr.1, by simpa using hr.2, rfl⟩
  · rintro ⟨r, hr, hname, hzip⟩
    exact ⟨r, List.mem_filter.2 ⟨hr, by simpa using hname⟩, hzip⟩

/-- Modelled from the spec: the configured set of valid 3-digit ZIP
prefixes.  No such set exists anywhere in src/app.py; the spec pins down
only that it covers the Virginia service territory (the prefix "229" of
"22902" is valid) and that out-of-territory codes such as "99999" are
outside it.  Virginia ZCTA prefixes are 201 and 220 through 246. -/
def specValidPrefixes : List String :=
  ["201", "220", "221", "222", "223", "224", "225", "226", "227", "228",
   "229", "230", "231", "232", "233", "234", "235", "236", "237", "238",
   "239", "240", "241", "242", "243", "244", "245", "246"]

/-- The 3-digit prefix of a ZIP key. -/
def zipPrefix3 (z : String) : String := String.mk (z.toList.take 3)

/-! ## The claims -/

/-- **C1** (corrected).  The `ESTAB` coercion
`pd.to_numeric(..., errors="coerce").fillna(0).astype(int)` turns every
non-numeric or missing raw value into `0`, and the result is a
non-negative integer provided the raw value does not carry a negative
number; the code never clamps, so non-negativity holds only under that
hypothesis. -/
theorem estab_coercion_nonneg (c : RawCell)
    (h : ∀ n : Int, to_numeric_coerce c = some n → 0 ≤ n) :
    0 ≤ estabCoerced c ∧
      (to_numeric_coerce c = none → estabCoerced c = 0) := by
  constructor
  · unfold estabCoerced
    cases hc : to_numeric_coerce c with
    | none => simp
    | some n => simpa using h n hc
  · intro hc
    unfold estabCoerced
    rw [hc]
    rfl

/-- Witness for the C1 theorem at a concrete non-numeric cell. -/
theorem estab_coercion_nonneg_witness :
    0 ≤ estabCoerced (RawCell.strVal "n/a") ∧
      (to_numeric_coerce (RawCell.strVal "n/a") = none →
        estabCoerced (RawCell.strVal "n/a") = 0) :=
  estab_coercion_nonneg (RawCell.strVal "n/a") (by
    intro n hn
    rw [show to_numeric_coerce (RawCell.strVal "n/a") = none from by decide] at hn
    exact Option.noConfusion hn)

/-- **C1** counterexample.  A negative numeric raw value survives the
coercion as a negative establishment count: the claim's unconditional
`establishment_count >= 0` is false. -/
theorem estab_negative_counterexample :
    coerceColumn [RawCell.intVal (-3), RawCell.strVal "n/a", RawCell.missing]
      = [-3, 0, 0] ∧
    (-3 : Int) ∈ coerceColumn [RawCell.intVal (-3), RawCell.strVal "n/a",
      RawCell.missing] ∧
    ¬ (0 : Int) ≤ -3 := by decide

/-- **C2** (corrected).  A detail record survives normalization exactly
when its `NAME` contains a run of five consecutive digits, in which case
its `ZIP` is the five characters at the leftmost such position; there is
no strip-non-digits fallback, so nothing else is recovered. -/
theorem zip_extraction_characterization (rows : List RawRow) (r' : Row) :
    r' ∈ normalizeDetail rows ↔
      ∃ r ∈ rows, ∃ i, firstRunIdx r.NAME.toList = some i ∧
        r' = { NAME := r.NAME, NAICS2017_LABEL := r.NAICS2017_LABEL,
               ESTAB := r.ESTAB,
               ZIP := String.mk ((r.NAME.toList.drop i).take 5) } :=
  mem_normalizeDetail rows r'

/-- **C2** counterexample.  `"1-2-3-4-5"` holds five digit characters but
no run of five consecutive digits; the claimed fallback would recover
`"12345"`, yet the code drops the record. -/
theorem zip_fallback_counterexample :
    ("1-2-3-4-5".toList.filter Char.isDigit).length = 5 ∧
    normalizeDetail [{ NAME := "1-2-3-4-5", NAICS2017_LABEL := "Retail", ESTAB := 1 }] = []
    := by decide

/-- **C3** (amended).  Every record retained by normalization has a `ZIP`
matching `^\d{5}$`; no prefix-based filtering exists, so this is all
that holds. -/
theorem normalized_zip_shape (rows : List RawRow) (r' : Row)
    (h : r' ∈ normalizeDetail rows) :
    r'.ZIP.length = 5 ∧ r'.ZIP.toList.all Char.isDigit := by
  obtain ⟨r, hr, i, hi, hr'⟩ := (mem_normalizeDetail rows r').1 h
  have hrun : startsRun5 (r.NAME.toList.drop i) = true := by
    simpa using List.find?_some hi
  obtain ⟨hlen, hdig⟩ := startsRun5_take _ hrun
  subst hr'
  exact ⟨by rw [length_mk]; exact hlen, hdig⟩

/-- Witness for the C3 theorem at a concrete retained record. -/
theorem normalized_zip_shape_witness :
    ({ NAME := "ZIP 22902 (Charlottesville, VA)", NAICS2017_LABEL := "S", ESTAB := 2, ZIP := "22902" } : Row).ZIP.length = 5 ∧
    ({ NAME := "ZIP 22902 (Charlottesville, VA)", NAICS2017_LABEL := "S", ESTAB := 2, ZIP := "22902" } : Row).ZIP.toList.all Char.isDigit :=
  normalized_zip_shape
    [{ NAME := "ZIP 22902 (Charlottesville, VA)", NAICS2017_LABEL := "S", ESTAB := 2 }]
    _ (by decide)

/-- **C3** counterexample.  A record whose derived ZIP prefix `"999"` lies
outside the configured valid-prefix set is nevertheless retained: the
code performs no prefix filtering. -/
theorem prefix_filter_counterexample :
    normalizeDetail [{ NAME := "ZIP 99999", NAICS2017_LABEL := "Retail", ESTAB := 1 }]
      = [{ NAME := "ZIP 99999", NAICS2017_LABEL := "Retail", ESTAB := 1, ZIP := "99999" }] ∧
    zipPrefix3 "99999" ∉ specValidPrefixes := by decide

/-- **C4** (corrected).  The sector aggregation is sorted descending by
total and is a permutation of the grouped sums, and ties between equal
totals follow the ascending sector-label order produced by `groupby`'s
key sorting — not the groups' input order.  The ZIP aggregation is not
ranked by total at all: its keys stay in ascending ZIP order (stated for
rows whose ZIPs already have width 5, so the re-applied `zfill` is the
identity). -/
theorem ranked_aggregation_order (rows : List Row)
    (h5 : ∀ r ∈ rows, r.ZIP.length = 5) :
    List.Sorted descLex (sector_totals rows) ∧
    List.Perm (sector_totals rows) (groupedSums rows Row.NAICS2017_LABEL) ∧
    List.Sorted strKeyLE ((zip_totals rows).map Prod.fst) := by
  refine ⟨insertionSort_descLex _ (groupedSums_pairwise rows _),
    List.perm_insertionSort descESTAB _, ?_⟩
  have hkey5 : ∀ k ∈ List.insertionSort strKeyLE
      (uniqueKeepFirst (rows.map Row.ZIP)), k.length = 5 := by
    intro k hk
    have hk2 : k ∈ rows.map Row.ZIP :=
      (mem_uniqueKeepFirst _ _).1
        ((List.perm_insertionSort strKeyLE _).mem_iff.1 hk)
    obtain ⟨r, hr, rfl⟩ := List.mem_map.1 hk2
    exact h5 r hr
  unfold zip_totals groupedSums
  rw [List.map_map, List.map_map]
  unfold List.Sorted
  rw [List.pairwise_map]
  refine (List.sorted_insertionSort strKeyLE
    (uniqueKeepFirst (rows.map Row.ZIP))).imp_of_mem ?_
  intro a b ha hb hab
  show strKeyLE (zfill 5 a) (zfill 5 b)
  rw [zfill_of_length5 a (hkey5 a ha), zfill_of_length5 b (hkey5 b hb)]
  exact hab

/-- Witness for the C4 theorem at a concrete pair of rows. -/
theorem ranked_aggregation_order_witness :
    List.Sorted descLex (sector_totals
      [{ NAME := "r1", NAICS2017_LABEL := "B", ESTAB := 5, ZIP := "11111" },
       { NAME := "r2", NAICS2017_LABEL := "A", ESTAB := 5, ZIP := "22222" }]) ∧
    List.Perm (sector_totals
      [{ NAME := "r1", NAICS2017_LABEL := "B", ESTAB := 5, ZIP := "11111" },
       { NAME := "r2", NAICS2017_LABEL := "A", ESTAB := 5, ZIP := "22222" }])
      (groupedSums
        [{ NAME := "r1", NAICS2017_LABEL := "B", ESTAB := 5, ZIP := "11111" },
         { NAME := "r2", NAICS2017_LABEL := "A", ESTAB := 5, ZIP := "22222" }]
        Row.NAICS2017_LABEL) ∧
    List.Sorted strKeyLE ((zip_totals
      [{ NAME := "r1", NAICS2017_LABEL := "B", ESTAB := 5, ZIP := "11111" },
       { NAME := "r2", NAICS2017_LABEL := "A", ESTAB := 5, ZIP := "22222" }]).map
        Prod.fst) :=
  ranked_aggregation_order
    [{ NAME := "r1", NAICS2017_LABEL := "B", ESTAB := 5, ZIP := "11111" },
     { NAME := "r2", NAICS2017_LABEL := "A", ESTAB := 5, ZIP := "22222" }]
    (by decide)

/-- **C4** counterexample.  Two sectors with equal totals appear in
ascending label order `A, B` although their input order was `B, A`; and
the ZIP aggregation is ordered by ZIP key, not descending by total. -/
theorem ranked_tie_counterexample :
    sector_totals
      [{ NAME := "r1", NAICS2017_LABEL := "B", ESTAB := 5, ZIP := "11111" },
       { NAME := "r2", NAICS2017_LABEL := "A", ESTAB := 5, ZIP := "22222" }]
      = [("A", 5), ("B", 5)] ∧
    sector_totals
      [{ NAME := "r1", NAICS2017_LABEL := "B", ESTAB := 5, ZIP := "11111" },
       { NAME := "r2", NAICS2017_LABEL := "A", ESTAB := 5, ZIP := "22222" }]
      ≠ [("B", 5), ("A", 5)] ∧
    zip_totals
      [{ NAME := "a", NAICS2017_LABEL := "S", ESTAB := 1, ZIP := "11111" },
       { NAME := "b", NAICS2017_LABEL := "T", ESTAB := 5, ZIP := "22222" }]
      = [("11111", 1), ("22222", 5)] ∧
    zip_totals
      [{ NAME := "a", NAICS2017_LABEL := "S", ESTAB := 1, ZIP := "11111" },
       { NAME := "b", NAICS2017_LABEL := "T", ESTAB := 5, ZIP := "22222" }]
      ≠ [("22222", 5), ("11111", 1)] := by decide

/-- **C5** (confirmed).  Grouping is order-independent: permuting the
records changes neither the sector nor the ZIP aggregate sequence. -/
theorem aggregation_order_independent (rows1 rows2 : List Row)
    (h : List.Perm rows1 rows2) :
    sector_totals rows1 = sector_totals rows2 ∧
    zip_totals rows1 = zip_totals rows2 := by
  constructor
  · unfold sector_totals
    rw [groupedSums_perm rows1 rows2 _ h]
  · unfold zip_totals
    rw [groupedSums_perm rows1 rows2 _ h]

/-- Witness for the C5 theorem at a concrete transposition. -/
theorem aggregation_order_independent_witness :
    sector_totals
      [{ NAME := "r2", NAICS2017_LABEL := "A", ESTAB := 5, ZIP := "22222" },
       { NAME := "r1", NAICS2017_LABEL := "B", ESTAB := 5, ZIP := "11111" }]
      = sector_totals
      [{ NAME := "r1", NAICS2017_LABEL := "B", ESTAB := 5, ZIP := "11111" },
       { NAME := "r2", NAICS2017_LABEL := "A", ESTAB := 5, ZIP := "22222" }] ∧
    zip_totals
      [{ NAME := "r2", NAICS2017_LABEL := "A", ESTAB := 5, ZIP := "22222" },
       { NAME := "r1", NAICS2017_LABEL := "B", ESTAB := 5, ZIP := "11111" }]
      = zip_totals
      [{ NAME := "r1", NAICS2017_LABEL := "B", ESTAB := 5, ZIP := "11111" },
       { NAME := "r2", NAICS2017_LABEL := "A", ESTAB := 5, ZIP := "22222" }] :=
  aggregation_order_independent _ _ (by decide)

/-- **C6** (confirmed).  When the selection resolves to zero ZIPs the
pipeline takes the warning path (`st.warning` + `st.stop`) instead of
raising, and every aggregation or join stage maps an empty input to an
empty output. -/
theorem empty_selection_path (ee : List Row) (sel : List String)
    (fs : List Feature) (h : final_selected_zips ee sel = []) :
    selectionStep ee sel = RenderOutcome.noSelectionWarning ∧
    sector_totals [] = [] ∧ zip_totals [] = [] ∧ mapJoin [] fs = [] := by
  refine ⟨?_, rfl, rfl, rfl⟩
  unfold selectionStep
  rw [h]
  rfl

/-- Witness for the C6 theorem at a selection matching no record. -/
theorem empty_selection_path_witness :
    selectionStep [{ NAME := "a", NAICS2017_LABEL := "S", ESTAB := 1, ZIP := "11111" }]
        ["zzz"] = RenderOutcome.noSelectionWarning ∧
    sector_totals [] = [] ∧ zip_totals [] = [] ∧
    mapJoin [] [{ props := [("ZCTA5CE20", "22902")] }] = [] :=
  empty_selection_path
    [{ NAME := "a", NAICS2017_LABEL := "S", ESTAB := 1, ZIP := "11111" }]
    ["zzz"] [{ props := [("ZCTA5CE20", "22902")] }] (by decide)

/-- **C7** (confirmed).  The choropleth join keeps exactly the aggregate
entries whose ZIP matches some feature key; the `{"22902","99999"}`
example keeps only `"22902"`, while the tabular ZIP aggregate retains
the unmatched `"99999"` entry. -/
theorem map_join_exact (agg : List (String × Int)) (fs : List Feature)
    (p : String × Int) :
    (p ∈ mapJoin agg fs ↔ p ∈ agg ∧ ∃ f ∈ fs, zcta f = some p.1) ∧
    mapJoin [("22902", 10), ("99999", 3)]
      [{ props := [("ZCTA5CE20", "22902")] }] = [("22902", 10)] ∧
    zip_totals
      [{ NAME := "a", NAICS2017_LABEL := "S", ESTAB := 3, ZIP := "22902" },
       { NAME := "b", NAICS2017_LABEL := "T", ESTAB := 4, ZIP := "99999" }]
      = [("22902", 3), ("99999", 4)] := by
  refine ⟨?_, by decide, by decide⟩
  unfold mapJoin
  rw [List.mem_filter]
  simp [List.any_eq_true]

/-- **C8** (confirmed).  The centroid lookup answers the stored
coordinate pair for a ZIP some feature contributed, and `none` — turned
into the `(None, None)` "no label" pair, never an error — for every
other ZIP. -/
theorem centroid_lookup (features : List Feature)
    (d : List (String × String × String)) (z : String)
    (h : zip_centroids features = .ok d) :
    ((∃ f ∈ features, zcta f = some z ∧ storesCentroid f = true) →
      ∃ f ∈ features, (zcta f = some z ∧ storesCentroid f = true) ∧
        dictGet d z = some (coordsOf f) ∧
        centroidLabel d z = (some (coordsOf f).1, some (coordsOf f).2)) ∧
    ((∀ f ∈ features, ¬ (zcta f = some z ∧ storesCentroid f = true)) →
      dictGet d z = none ∧ centroidLabel d z = (none, none)) := by
  obtain ⟨hnone, hsome⟩ := zipCentroidsAux_get z features [] d h
  constructor
  · intro hex
    obtain ⟨f, hf, hfz, hget⟩ := hsome hex
    refine ⟨f, hf, hfz, hget, ?_⟩
    unfold centroidLabel
    rw [hget]
  · intro hall
    have h0 : dictGet d z = none := hnone hall
    refine ⟨h0, ?_⟩
    unfold centroidLabel
    rw [h0]

/-- Witness for the C8 theorem: a ZIP with no contributing feature gets
`none` and the `(None, None)` label. -/
theorem centroid_lookup_witness :
    dictGet [("22902", ("-78.5", "38.0"))] "99999" = none ∧
    centroidLabel [("22902", ("-78.5", "38.0"))] "99999" = (none, none) :=
  (centroid_lookup
    [{ props := [("ZCTA5CE20", "22902"), ("INTPTLON20", "-78.5"),
                 ("INTPTLAT20", "38.0")] }]
    [("22902", ("-78.5", "38.0"))] "99999" rfl).2 (by decide)

/-- **C9** (confirmed).  Filtering is authoritative by derived ZIP: the
filtered detail set holds exactly the records whose ZIP equals the ZIP
of some selected name — so selecting one name also selects records of a
different name sharing the same ZIP. -/
theorem selection_by_zip (ee : List Row) (sel : List String) (r : Row) :
    (r ∈ multi_data ee sel ↔
      r ∈ ee ∧ ∃ r2 ∈ ee, r2.NAME ∈ sel ∧ r2.ZIP = r.ZIP) ∧
    multi_data
      [{ NAME := "a", NAICS2017_LABEL := "S", ESTAB := 1, ZIP := "11111" },
       { NAME := "b", NAICS2017_LABEL := "T", ESTAB := 5, ZIP := "11111" }]
      ["a"]
      = [{ NAME := "a", NAICS2017_LABEL := "S", ESTAB := 1, ZIP := "11111" },
         { NAME := "b", NAICS2017_LABEL := "T", ESTAB := 5, ZIP := "11111" }] := by
  refine ⟨?_, by decide⟩
  unfold multi_data
  rw [List.mem_filter]
  simp [mem_final_selected_zips]

/-- **C10** (confirmed).  Centroid extraction subscripts `ZCTA5CE20`
unconditionally: a feature carrying its ZIP only under `ZIP_CODE` makes
the loop fail with a key-lookup error instead of skipping or falling
back. -/
theorem zcta_key_required :
    zip_centroids [{ props := [("ZIP_CODE", "22902"), ("INTPTLON20", "-78.5"),
      ("INTPTLAT20", "38.0")] }] = Except.error "KeyError: ZCTA5CE20" := rfl

end AepZip
